import Mathlib

/-!
Verification of the I2cTestTool console utility (src/I2cTestTool/main.cpp).

The file gives a shallow embedding of the tool's core: the byte-buffer
extraction operator `operator>> (std::wistream&, std::vector<BYTE>&)`, the
numeric extractions `is >> std::hex >> byte` and `linestream >> bytesToRead`,
the byte rendering operator `operator<< (std::wostream&, Platform::Array<BYTE>^)`,
the per-command dispatch of `ShowPrompt`, and the exit-code behaviour of `main`.

Streams are modelled as the list of characters not yet consumed plus a fail
flag.  Numeric extraction is modelled for unsigned fields made of plain
digit runs (no sign and no 0x prefix, which no command of the tool uses);
per C++11 num_get semantics a digit run whose value exceeds UINT_MAX is
consumed but sets the fail bit.  Because `std::wcout`'s basefield is sticky
(`std::hex` once inserted persists), the current basefield is threaded
through every printing operation as a `Base` value.
-/

namespace I2c

/-- Maximum value of a C++ `unsigned int` (32 bits), the target type of both
numeric extractions in main.cpp. -/
def UINT_MAX : Nat := 4294967295

/-- Whitespace test matching `isspace` in the C locale as used by `expect`
(main.cpp line 88) and by stream sentries when skipping whitespace. -/
def isspaceW (c : Char) : Bool :=
  c == ' ' || c == '\t' || c == '\n' || c == '\x0b' || c == '\x0c' || c == '\r'

/-- Value of a hexadecimal digit character, as accepted by
`is >> std::hex >> byte` (main.cpp line 108); both letter cases count. -/
def hexDigitVal (c : Char) : Option Nat :=
  if '0' ≤ c ∧ c ≤ '9' then some (c.toNat - '0'.toNat)
  else if 'a' ≤ c ∧ c ≤ 'f' then some (c.toNat - 'a'.toNat + 10)
  else if 'A' ≤ c ∧ c ≤ 'F' then some (c.toNat - 'A'.toNat + 10)
  else none

/-- Value of a decimal digit character, as accepted by
`linestream >> bytesToRead` (main.cpp lines 202 and 235). -/
def decDigitVal (c : Char) : Option Nat :=
  if '0' ≤ c ∧ c ≤ '9' then some (c.toNat - '0'.toNat)
  else none

/-- Model of a `std::wistringstream` over one line of input: the characters
not yet consumed and the fail state. -/
structure WIStream where
  input : List Char
  failed : Bool
  deriving DecidableEq

/-- Drop leading whitespace, as a stream sentry does before an extraction. -/
def skipWs : List Char → List Char
  | [] => []
  | c :: rest => if isspaceW c then skipWs rest else c :: rest

/-- Greedily classify leading characters with `f`, returning the classified
values and the unconsumed remainder.  Instantiated with digit classifiers for
numeric extraction and with a non-whitespace classifier for `wstring`
extraction. -/
def spanWith {α : Type} (f : Char → Option α) : List Char → List α × List Char
  | [] => ([], [])
  | c :: rest =>
    match f c with
    | some a => (a :: (spanWith f rest).1, (spanWith f rest).2)
    | none => ([], c :: rest)

/-- Numeric value of a digit list in the given base (most significant first). -/
def digitsVal (b : Nat) (ds : List Nat) : Nat :=
  ds.foldl (fun a d => b * a + d) 0

/-- Model of `is >> base >> v` for an `unsigned int` target over a plain digit
run: skip whitespace, take the maximal run of digits of the base; an empty run
sets the fail bit consuming nothing further, and a run whose value exceeds
`UINT_MAX` is consumed but sets the fail bit (C++11 num_get overflow rule).
An extraction on an already failed stream does nothing. -/
def extractUInt (dv : Char → Option Nat) (b : Nat) (is : WIStream) : WIStream × Option Nat :=
  if is.failed then (is, none)
  else
    match spanWith dv (skipWs is.input) with
    | ([], rest) => (⟨rest, true⟩, none)
    | (d :: ds, rest) =>
      if digitsVal b (d :: ds) ≤ UINT_MAX then (⟨rest, false⟩, some (digitsVal b (d :: ds)))
      else (⟨rest, true⟩, none)

/-- Hexadecimal extraction `is >> std::hex >> byte` (main.cpp line 108). -/
def extractHexUInt (is : WIStream) : WIStream × Option Nat :=
  extractUInt hexDigitVal 16 is

/-- Decimal extraction `linestream >> bytesToRead` (main.cpp lines 202, 235);
the fresh line stream's basefield is decimal. -/
def extractDecUInt (is : WIStream) : WIStream × Option Nat :=
  extractUInt decDigitVal 10 is

/-- Classifier for `wstring` extraction: any non-whitespace character is part
of the token. -/
def tokChar (c : Char) : Option Char :=
  if isspaceW c then none else some c

/-- Model of `linestream >> command` (main.cpp line 171): skip whitespace and
read a maximal non-whitespace token; at end of input the extraction fails and
the default-constructed empty string is kept. -/
def extractToken (is : WIStream) : WIStream × String :=
  if is.failed then (is, "")
  else
    match spanWith tokChar (skipWs is.input) with
    | ([], _) => (⟨[], true⟩, "")
    | (c :: cs, rest) => (⟨rest, false⟩, String.mk (c :: cs))

/-- Model of `expect` (main.cpp lines 83-94): read characters until the
delimiter is found; a non-whitespace character other than the delimiter, or
end of input, sets the fail bit. -/
def expectLoop (delim : Char) : List Char → WIStream
  | [] => ⟨[], true⟩
  | c :: rest =>
    if c = delim then ⟨rest, false⟩
    else if isspaceW c then expectLoop delim rest
    else ⟨rest, true⟩

/-- The `expect` helper applied to a stream: on an already failed stream the
first `is.get` fails immediately. -/
def expect (is : WIStream) (delim : Char) : WIStream :=
  if is.failed then is else expectLoop delim is.input

/-- The basefield of `std::wcout`.  It starts as decimal and is switched (and
left) to hexadecimal by every `std::hex` insertion in the program. -/
inductive Base where
  | dec
  | hex
  deriving DecidableEq

/-- Lowercase hexadecimal digit character, as `std::hex` prints (no uppercase
flag is ever set on `std::wcout`). -/
def hexDigitChar (d : Nat) : Char :=
  if d < 10 then Char.ofNat ('0'.toNat + d) else Char.ofNat ('a'.toNat + d - 10)

/-- Fuel-driven most-significant-first hexadecimal digit expansion.  With fuel
at least `n` it computes the digits of `n`; the fuel pattern keeps the
definition structurally recursive. -/
def toHexDigitsF : Nat → Nat → List Char
  | 0, n => [hexDigitChar (n % 16)]
  | fuel + 1, n =>
    if n < 16 then [hexDigitChar n]
    else toHexDigitsF fuel (n / 16) ++ [hexDigitChar (n % 16)]

/-- Hexadecimal digit list of `n`, no padding and no 0x prefix, exactly as
`os << std::hex << v` renders an unsigned value. -/
def toHexDigits (n : Nat) : List Char :=
  toHexDigitsF n n

/-- Hexadecimal rendering of `n` as a string. -/
def toHexString (n : Nat) : String :=
  String.mk (toHexDigits n)

/-- Decimal digit character. -/
def decDigitChar (d : Nat) : Char :=
  Char.ofNat ('0'.toNat + d)

/-- Fuel-driven decimal digit expansion, analogous to `toHexDigitsF`. -/
def toDecDigitsF : Nat → Nat → List Char
  | 0, n => [decDigitChar (n % 10)]
  | fuel + 1, n =>
    if n < 10 then [decDigitChar n]
    else toDecDigitsF fuel (n / 10) ++ [decDigitChar (n % 10)]

/-- Decimal rendering of `n` as a string, as `os << v` renders an unsigned
value while the basefield is decimal. -/
def toDecString (n : Nat) : String :=
  String.mk (toDecDigitsF n n)

/-- Render a number under the stream's current basefield, as
`std::wcout << result.BytesTransferred` does. -/
def renderNat (base : Base) (n : Nat) : String :=
  match base with
  | .dec => toDecString n
  | .hex => toHexString n

/-- Model of `operator<< (std::wostream&, const Platform::Array<BYTE>^)`
(main.cpp lines 131-136): each byte is printed as a space followed by its
unpadded lowercase hexadecimal value (the `unsigned char` is promoted to
`int` and printed through the `std::hex` manipulator). -/
def formatBytes : List Nat → String
  | [] => ""
  | b :: rest => " " ++ toHexString b ++ formatBytes rest

/-- Basefield after printing a byte array: `std::hex` is inserted once per
byte, so the basefield becomes (and stays) hexadecimal exactly when the
array is non-empty. -/
def baseAfterBytes (base : Base) (bytes : List Nat) : Base :=
  if bytes.isEmpty then base else .hex

/-- One step of the byte-gathering loop `while (is >> std::hex >> byte)`
(main.cpp lines 107-115), fuel-driven to stay structurally recursive.  A
value above 0xff prints the out-of-range diagnostic (reported through the
third component), sets the fail bit and returns early. -/
def byteLoopF : Nat → WIStream → List Nat → WIStream × List Nat × Option Nat
  | 0, is, acc => (is, acc, none)
  | fuel + 1, is, acc =>
    match extractHexUInt is with
    | (is', some b) =>
      if b > 0xff then (⟨is'.input, true⟩, acc, some b)
      else byteLoopF fuel is' (acc ++ [b])
    | (is', none) => (is', acc, none)

/-- The byte-gathering loop with sufficient fuel: each successful extraction
consumes at least one character, so `input.length + 1` steps always reach the
loop's exit. -/
def byteLoop (is : WIStream) (acc : List Nat) : WIStream × List Nat × Option Nat :=
  byteLoopF (is.input.length + 1) is acc

/-- Result of the byte-buffer extraction operator: final stream state, the
contents of the `bytes` vector, the text the operator itself printed to
`std::wcout`, and the basefield afterwards (the out-of-range message inserts
`std::hex`). -/
structure BufParseResult where
  is : WIStream
  bytes : List Nat
  output : String
  base : Base
  deriving DecidableEq

/-- Model of `operator>> (std::wistream&, std::vector<BYTE>&)` (main.cpp
lines 96-129): expect `{`, gather hexadecimal byte values, reject values
above 0xff and empty buffers, then expect `}`.  Every failure path prints a
diagnostic directly to `std::wcout` and leaves the stream failed. -/
def opExtractBytes (base : Base) (is : WIStream) : BufParseResult :=
  match expect is '\x7b' with
  | is1 =>
    if is1.failed then ⟨is1, [], "Syntax error: expecting \x27\x7b\x27\n", base⟩
    else
      match byteLoop is1 [] with
      | (is2, bytes, some bad) =>
        ⟨is2, bytes, "Out of range [0, 0xff]: " ++ toHexString bad ++ "\n", .hex⟩
      | (is2, bytes, none) =>
        if bytes.isEmpty then ⟨⟨is2.input, true⟩, bytes, "Zero-length buffers are not allowed\n", base⟩
        else
          match expect ⟨is2.input, false⟩ '\x7d' with
          | is3 =>
            if is3.failed then ⟨is3, bytes, "Syntax error: expecting \x27\x7d\x27\n", base⟩
            else ⟨is3, bytes, "", base⟩

/-- Transfer status as classified by the switch statements in `ShowPrompt`;
`unknownStatus` stands for any `I2cTransferStatus` value outside the three
known enumerators (the `default:` case, which throws). -/
inductive I2cTransferStatus where
  | fullTransfer
  | partialTransfer
  | slaveAddressNotAcknowledged
  | unknownStatus (code : Nat)
  deriving DecidableEq

/-- Model of `I2cTransferResult`: status plus the combined transferred byte
count (`BytesTransferred` is a 32-bit unsigned field). -/
structure I2cTransferResult where
  status : I2cTransferStatus
  bytesTransferred : Nat
  deriving DecidableEq

/-- The opaque bus handle (`I2cDevice^`).  `readPartial` and
`writeReadPartial` return, besides the result, the bytes the device deposited
into the caller's buffer (the buffer itself is zero-initialised at allocation,
so entries beyond the deposited bytes read as 0). -/
structure Device where
  writePartial : List Nat → I2cTransferResult
  readPartial : Nat → I2cTransferResult × List Nat
  writeReadPartial : List Nat → Nat → I2cTransferResult × List Nat
  slaveAddress : Nat
  busSpeed : Nat
  deviceId : String

/-- A transaction issued to the bus handle, recorded for the call trace. -/
inductive BusCall where
  | write (bytes : List Nat)
  | read (count : Nat)
  | writeRead (bytes : List Nat) (count : Nat)
  deriving DecidableEq

/-- Contents of a freshly allocated `Platform::Array<BYTE>(n)` after the
device deposited `data` into it: the deposited bytes truncated to the array
size, the rest still zero-initialised. -/
def fitBuffer (n : Nat) (data : List Nat) : List Nat :=
  data.take n ++ List.replicate (n - data.length) 0

/-- Wrapping 32-bit unsigned subtraction, the value of
`result.BytesTransferred - int(writeBuf.size())` before it is stored into the
signed `bytesRead` (main.cpp line 254). -/
def wrapSub (a b : Nat) : Nat :=
  (a % 4294967296 + (4294967296 - b % 4294967296)) % 4294967296

/-- Reinterpretation of a 32-bit unsigned value as a signed `int`, modelling
the store into `int bytesRead` (two's complement). -/
def toInt32 (u : Nat) : Int :=
  if u % 4294967296 < 2147483648 then ((u % 4294967296 : Nat) : Int)
  else ((u % 4294967296 : Nat) : Int) - 4294967296

/-- Outcome of executing one bus command: text printed, basefield afterwards,
whether the `default:` case threw `wexception` (an engine fault), and the bus
calls issued. -/
structure ExecResult where
  output : String
  base : Base
  faulted : Bool
  calls : List BusCall
  deriving DecidableEq

/-- The `write` command body (main.cpp lines 183-198): issue `WritePartial`
and classify the result; no bytes are ever rendered. -/
def runWrite (device : Device) (base : Base) (buf : List Nat) : ExecResult :=
  match device.writePartial buf with
  | ⟨.fullTransfer, _⟩ => ⟨"", base, false, [.write buf]⟩
  | ⟨.partialTransfer, bt⟩ =>
    ⟨"Partial Transfer. Transferred " ++ renderNat base bt ++ " bytes\n", base, false, [.write buf]⟩
  | ⟨.slaveAddressNotAcknowledged, _⟩ =>
    ⟨"Slave address was not acknowledged\n", base, false, [.write buf]⟩
  | ⟨.unknownStatus _, _⟩ => ⟨"", base, true, [.write buf]⟩

/-- The `read` command body (main.cpp lines 207-224): allocate a buffer of
the requested length, issue `ReadPartial`, and on FullTransfer or
PartialTransfer print the whole buffer. -/
def runRead (device : Device) (base : Base) (n : Nat) : ExecResult :=
  match device.readPartial n with
  | (⟨.fullTransfer, _⟩, data) =>
    ⟨formatBytes (fitBuffer n data) ++ "\n", baseAfterBytes base (fitBuffer n data), false, [.read n]⟩
  | (⟨.partialTransfer, bt⟩, data) =>
    ⟨"Partial Transfer. Transferred " ++ renderNat base bt ++ " bytes\n" ++
        formatBytes (fitBuffer n data) ++ "\n",
      baseAfterBytes base (fitBuffer n data), false, [.read n]⟩
  | (⟨.slaveAddressNotAcknowledged, _⟩, _) =>
    ⟨"Slave address was not acknowledged\n", base, false, [.read n]⟩
  | (⟨.unknownStatus _, _⟩, _) => ⟨"", base, true, [.read n]⟩

/-- The `writeread` command body (main.cpp lines 240-265): issue
`WriteReadPartial`; under PartialTransfer compute
`int bytesRead = BytesTransferred - int(writeBuf.size())` and print the whole
read buffer exactly when that signed difference is positive. -/
def runWriteRead (device : Device) (base : Base) (buf : List Nat) (n : Nat) : ExecResult :=
  match device.writeReadPartial buf n with
  | (⟨.fullTransfer, _⟩, data) =>
    ⟨formatBytes (fitBuffer n data) ++ "\n", baseAfterBytes base (fitBuffer n data), false,
      [.writeRead buf n]⟩
  | (⟨.partialTransfer, bt⟩, data) =>
    if 0 < toInt32 (wrapSub bt buf.length) then
      ⟨"Partial Transfer. Transferred " ++ renderNat base bt ++ " bytes\n" ++
          formatBytes (fitBuffer n data) ++ "\n",
        baseAfterBytes base (fitBuffer n data), false, [.writeRead buf n]⟩
    else
      ⟨"Partial Transfer. Transferred " ++ renderNat base bt ++ " bytes\n", base, false,
        [.writeRead buf n]⟩
  | (⟨.slaveAddressNotAcknowledged, _⟩, _) =>
    ⟨"Slave address was not acknowledged\n", base, false, [.writeRead buf n]⟩
  | (⟨.unknownStatus _, _⟩, _) => ⟨"", base, true, [.writeRead buf n]⟩

/-- Parsed form of one input line, as `ShowPrompt`'s if-else chain classifies
it; `errorCmd` carries the full diagnostic text printed for an argument parse
failure (parser message plus usage hint). -/
inductive ParsedLine where
  | quitCmd
  | helpCmd
  | infoCmd
  | emptyCmd
  | unrecognizedCmd (cmd : String)
  | writeCmd (buf : List Nat)
  | readCmd (n : Nat)
  | writeReadCmd (buf : List Nat) (n : Nat)
  | errorCmd (output : String)
  deriving DecidableEq

/-- Whether a parsed line is a complete recognised command with valid
arguments (everything except empty lines, unrecognised commands and argument
parse failures). -/
def ParsedLine.isCompleteCommand : ParsedLine → Bool
  | .quitCmd | .helpCmd | .infoCmd | .writeCmd _ | .readCmd _ | .writeReadCmd _ _ => true
  | _ => false

/-- Usage hint of the `write` command (main.cpp line 179). -/
def writeUsage : String := "Usage: write \x7b 55 a0 ... ff \x7d\n"

/-- Usage hint of the `writeread` command (main.cpp lines 230, 237). -/
def writeReadUsage : String := "Usage: writeread \x7b 55 a0 ... ff \x7d 4\n"

/-- Continuation of the `write` branch after the buffer extraction
(main.cpp lines 177-181). -/
def writeStep (r : BufParseResult) : ParsedLine × Base :=
  if r.is.failed then (.errorCmd (r.output ++ writeUsage), r.base)
  else (.writeCmd r.bytes, r.base)

/-- Continuation of the `read` branch after the length extraction
(main.cpp lines 201-205). -/
def readStep (base : Base) (p : WIStream × Option Nat) : ParsedLine × Base :=
  match p.2 with
  | none => (.errorCmd "Expecting integer. e.g: read 4\n", base)
  | some n => (.readCmd n, base)

/-- Continuation of the `writeread` branch after the buffer extraction
(main.cpp lines 228-239). -/
def writeReadStep (r : BufParseResult) : ParsedLine × Base :=
  if r.is.failed then (.errorCmd (r.output ++ writeReadUsage), r.base)
  else
    match (extractDecUInt r.is).2 with
    | none => (.errorCmd ("Syntax error: expecting integer\n" ++ writeReadUsage), r.base)
    | some n => (.writeReadCmd r.bytes n, r.base)

/-- Dispatch on the command token, mirroring the if-else chain of
`ShowPrompt` (main.cpp lines 172-278) up to the point where a bus call would
be issued. -/
def dispatchCmd (base : Base) (command : String) (is1 : WIStream) : ParsedLine × Base :=
  if command = "q" ∨ command = "quit" then (.quitCmd, base)
  else if command = "h" ∨ command = "help" then (.helpCmd, base)
  else if command = "write" then writeStep (opExtractBytes base is1)
  else if command = "read" then readStep base (extractDecUInt is1)
  else if command = "writeread" then writeReadStep (opExtractBytes base is1)
  else if command = "info" then (.infoCmd, base)
  else if command = "" then (.emptyCmd, base)
  else (.unrecognizedCmd command, base)

/-- Parse one input line: extract the command token, then dispatch. -/
def parseLine (base : Base) (line : String) : ParsedLine × Base :=
  match extractToken ⟨line.data, false⟩ with
  | (is1, command) => dispatchCmd base command is1

/-- What the loop does after processing one line. -/
inductive LineAction where
  | next
  | quit
  | fault
  deriving DecidableEq

/-- Result of processing one line inside `ShowPrompt`: the text printed, the
basefield afterwards, the control action, and the bus calls issued. -/
structure LineResult where
  output : String
  base : Base
  action : LineAction
  calls : List BusCall
  deriving DecidableEq

/-- Lift a command execution outcome into a line result: a thrown
`wexception` (engine fault) aborts `ShowPrompt`, anything else continues the
loop. -/
def ExecResult.toLineResult (e : ExecResult) : LineResult :=
  ⟨e.output, e.base, if e.faulted then .fault else .next, e.calls⟩

/-- The help text (main.cpp lines 150-157). -/
def Help : String :=
  "Commands:\n" ++
  " > write \x7b 00 11 22 .. FF \x7d         Write supplied buffer\n" ++
  " > read N                           Read N bytes\n" ++
  " > writeread \x7b 00 11 .. FF \x7d N      Write buffer, restart, read N bytes\n" ++
  " > info                             Display device information\n" ++
  " > help                             Display this help message\n" ++
  " > quit                             Quit\n\n"

/-- Rendering of an `I2cBusSpeed` value (main.cpp lines 138-148); the enum's
`StandardMode` is 0 and `FastMode` is 1. -/
def busSpeedText (speed : Nat) : String :=
  if speed = 0 then "StandardMode (100Khz)"
  else if speed = 1 then "FastMode (400kHz)"
  else "[Invalid bus speed]"

/-- Output of the `info` command (main.cpp lines 266-272); the slave address
is printed through `std::hex`. -/
def infoText (device : Device) : String :=
  "       DeviceId: " ++ device.deviceId ++ "\n" ++
  "  Slave address: 0x" ++ toHexString device.slaveAddress ++ "\n" ++
  "      Bus Speed: " ++ busSpeedText device.busSpeed ++ "\n"

/-- Process one input line of `ShowPrompt` (main.cpp lines 159-280). -/
def processLine (device : Device) (base : Base) (line : String) : LineResult :=
  match parseLine base line with
  | (.quitCmd, b) => ⟨"", b, .quit, []⟩
  | (.helpCmd, b) => ⟨Help, b, .next, []⟩
  | (.writeCmd buf, b) => (runWrite device b buf).toLineResult
  | (.readCmd n, b) => (runRead device b n).toLineResult
  | (.writeReadCmd buf n, b) => (runWriteRead device b buf n).toLineResult
  | (.infoCmd, _) => ⟨infoText device, .hex, .next, []⟩
  | (.emptyCmd, b) => ⟨"", b, .next, []⟩
  | (.unrecognizedCmd c, b) =>
    ⟨"Unrecognized command: " ++ c ++ ". Type \x27help\x27 for command usage.\n", b, .next, []⟩
  | (.errorCmd out, b) => ⟨out, b, .next, []⟩

/-- The interactive loop of `ShowPrompt` over the lines available on standard
input: prints the prompt, processes each line, returns the full transcript
and whether a `wexception` escaped (engine fault). -/
def showPromptRun (device : Device) (base : Base) : List String → String × Bool
  | [] => ("> ", false)
  | l :: rest =>
    match processLine device base l with
    | r =>
      match r.action with
      | .quit => ("> " ++ r.output, false)
      | .fault => ("> " ++ r.output, true)
      | .next =>
        match showPromptRun device r.base rest with
        | (out, f) => ("> " ++ r.output ++ out, f)

/-- Exit code of a session that successfully acquired the device and reached
`ShowPrompt` (main.cpp lines 319-331): a `wexception` escaping the loop is
caught in `main` and yields exit code 1; a normal return from the loop (quit
or end of input) falls through to `return 0`.  The basefield of `std::wcout`
starts as decimal. -/
def sessionExitCode (device : Device) (lines : List String) : Nat :=
  if (showPromptRun device .dec lines).2 then 1 else 0

/-- A device whose every transfer reports `SlaveAddressNotAcknowledged`. -/
def nackDev : Device :=
  { writePartial := fun _ => ⟨.slaveAddressNotAcknowledged, 0⟩
    readPartial := fun _ => (⟨.slaveAddressNotAcknowledged, 0⟩, [])
    writeReadPartial := fun _ _ => (⟨.slaveAddressNotAcknowledged, 0⟩, [])
    slaveAddress := 0x57, busSpeed := 0, deviceId := "I2C1" }

/-- A device whose write-read transfers report `PartialTransfer` with a
combined count of 5, depositing four bytes into the read buffer. -/
def wr5Dev : Device :=
  { writePartial := fun _ => ⟨.fullTransfer, 0⟩
    readPartial := fun _ => (⟨.fullTransfer, 0⟩, [])
    writeReadPartial := fun _ _ => (⟨.partialTransfer, 5⟩, [0x11, 0x22, 0x33, 0x44])
    slaveAddress := 0x57, busSpeed := 0, deviceId := "I2C1" }

/-- A device whose reads report `PartialTransfer` with count 2 after
depositing the bytes 0x11 0x22. -/
def pr2Dev : Device :=
  { writePartial := fun _ => ⟨.fullTransfer, 0⟩
    readPartial := fun _ => (⟨.partialTransfer, 2⟩, [0x11, 0x22])
    writeReadPartial := fun _ _ => (⟨.fullTransfer, 0⟩, [])
    slaveAddress := 0x57, busSpeed := 0, deviceId := "I2C1" }

/-- A device whose reads fully transfer, depositing the bytes 0x0a 0xff. -/
def fr2Dev : Device :=
  { writePartial := fun _ => ⟨.fullTransfer, 0⟩
    readPartial := fun _ => (⟨.fullTransfer, 2⟩, [0x0a, 0xff])
    writeReadPartial := fun _ _ => (⟨.fullTransfer, 0⟩, [])
    slaveAddress := 0x57, busSpeed := 0, deviceId := "I2C1" }

/-- A device whose every transfer reports a status value outside the known
enumerators, driving `ShowPrompt` into its `default:` case. -/
def faultDev : Device :=
  { writePartial := fun _ => ⟨.unknownStatus 7, 0⟩
    readPartial := fun _ => (⟨.unknownStatus 7, 0⟩, [])
    writeReadPartial := fun _ _ => (⟨.unknownStatus 7, 0⟩, [])
    slaveAddress := 0x57, busSpeed := 0, deviceId := "I2C1" }

/-- A status is known when it is one of the three enumerators handled by the
switch statements; any other value throws `wexception`. -/
def I2cTransferStatus.isKnown : I2cTransferStatus → Bool
  | .unknownStatus _ => false
  | _ => true

/-- Hexadecimal value of a character list (characters without a hexadecimal
value count as 0); used to state the rendering round-trip. -/
def hexCharsVal (cs : List Char) : Nat :=
  digitsVal 16 (cs.map fun c => (hexDigitVal c).getD 0)

/-- A character that `std::hex` output can contain: a decimal digit or a
lowercase hexadecimal letter. -/
def isLowerHexChar (c : Char) : Bool :=
  ('0' ≤ c && c ≤ '9') || ('a' ≤ c && c ≤ 'f')

/-- A well-formed hexadecimal token: a non-empty run of hexadecimal digit
characters. -/
def HexTok (t : List Char) : Prop :=
  t ≠ [] ∧ ∀ c ∈ t, (hexDigitVal c).isSome = true

/-- Value of a hexadecimal token. -/
def tokVal (t : List Char) : Nat :=
  digitsVal 16 (t.map fun c => (hexDigitVal c).getD 0)

/-- Value of a decimal token. -/
def decTokVal (t : List Char) : Nat :=
  digitsVal 10 (t.map fun c => (decDigitVal c).getD 0)

/-- The characters following the opening brace of a brace-delimited token
sequence: one space before each token, then a space and the closing brace. -/
def tokensTail (toks : List (List Char)) : List Char :=
  toks.foldr (fun t acc => ' ' :: (t ++ acc)) [' ', '\x7d']

/-- The full character stream of a brace-delimited token sequence, e.g.
`tokensInput [t1, t2]` is the characters of "{ t1 t2 }". -/
def tokensInput (toks : List (List Char)) : List Char :=
  '\x7b' :: tokensTail toks

/-- A trailing suffix that cannot extend the last token of a complete
command: empty, or beginning with whitespace. -/
def suffOk (s : String) : Bool :=
  match s.data with
  | [] => true
  | c :: _ => isspaceW c

/-- The head of the list, if any, is not classified by `f`. -/
def headNone {α : Type} (f : Char → Option α) : List Char → Prop
  | [] => True
  | c :: _ => f c = none

/-- String append is associative (the underlying character lists append). -/
theorem str_append_assoc (a b c : String) : (a ++ b) ++ c = a ++ (b ++ c) := by
  apply congrArg String.mk
  simp [String.data_append]

/-- Dropping whitespace never lengthens the input. -/
theorem skipWs_length_le (l : List Char) : (skipWs l).length ≤ l.length := by
  induction l with
  | nil => simp [skipWs]
  | cons c rest ih =>
    simp only [skipWs]
    split
    · exact le_trans ih (by simp)
    · simp

/-- The classified prefix and the remainder of a span partition the input. -/
theorem spanWith_length {α : Type} (f : Char → Option α) : ∀ l : List Char,
    (spanWith f l).1.length + (spanWith f l).2.length = l.length := by
  intro l
  induction l with
  | nil => simp [spanWith]
  | cons c rest ih =>
    cases hf : f c with
    | some a =>
      simp only [spanWith, hf, List.length_cons]
      omega
    | none => simp [spanWith, hf]

/-- A successful numeric extraction consumes at least one character. -/
theorem extractUInt_some_consumes {dv : Char → Option Nat} {b : Nat} {is is' : WIStream}
    {v : Nat} (h : extractUInt dv b is = (is', some v)) :
    is'.input.length < is.input.length := by
  cases hf : is.failed with
  | true => simp [extractUInt, hf] at h
  | false =>
    rcases hs : spanWith dv (skipWs is.input) with ⟨ds, rest⟩
    cases ds with
    | nil => simp [extractUInt, hf, hs] at h
    | cons d ds =>
      have hlen := spanWith_length dv (skipWs is.input)
      rw [hs] at hlen
      have hsk := skipWs_length_le is.input
      by_cases hv : digitsVal b (d :: ds) ≤ UINT_MAX
      · simp only [extractUInt, hf, Bool.false_eq_true, if_false, hs, if_pos hv,
          Prod.mk.injEq] at h
        rw [← h.1]
        dsimp only
        simp only [List.length_cons] at hlen
        omega
      · simp [extractUInt, hf, hs, if_neg hv] at h

/-- The fuel of the byte-gathering loop is irrelevant once it exceeds the
number of unconsumed characters. -/
theorem byteLoopF_congr : ∀ (f g : Nat) (is : WIStream) (acc : List Nat),
    is.input.length < f → is.input.length < g → byteLoopF f is acc = byteLoopF g is acc := by
  intro f
  induction f with
  | zero => intro g is acc hf _; omega
  | succ f ih =>
    intro g is acc hf hg
    cases g with
    | zero => omega
    | succ g =>
      rcases he : extractHexUInt is with ⟨is', b?⟩
      cases b? with
      | none => simp only [byteLoopF, he]
      | some b =>
        have hcb : is'.input.length < is.input.length := extractUInt_some_consumes he
        by_cases hb : b > 0xff
        · simp only [byteLoopF, he, if_pos hb]
        · simp only [byteLoopF, he, if_neg hb]
          apply ih <;> omega

/-- One-step unfolding of the byte-gathering loop. -/
theorem byteLoop_eq (is : WIStream) (acc : List Nat) :
    byteLoop is acc =
      match extractHexUInt is with
      | (is', some b) =>
        if b > 0xff then (⟨is'.input, true⟩, acc, some b) else byteLoop is' (acc ++ [b])
      | (is', none) => (is', acc, none) := by
  rcases he : extractHexUInt is with ⟨is', b?⟩
  cases b? with
  | none =>
    show byteLoopF (is.input.length + 1) is acc = _
    simp only [byteLoopF, he]
  | some b =>
    have hcb : is'.input.length < is.input.length := extractUInt_some_consumes he
    by_cases hb : b > 0xff
    · show byteLoopF (is.input.length + 1) is acc = _
      simp only [byteLoopF, he, if_pos hb]
    · show byteLoopF (is.input.length + 1) is acc = _
      simp only [byteLoopF, he, if_neg hb]
      show _ = byteLoopF (is'.input.length + 1) is' (acc ++ [b])
      apply byteLoopF_congr <;> omega

/-- When the loop reports an out-of-range byte, it has set the fail bit. -/
theorem byteLoopF_some_failed : ∀ (fuel : Nat) (is : WIStream) (acc : List Nat) (b : Nat),
    (byteLoopF fuel is acc).2.2 = some b → (byteLoopF fuel is acc).1.failed = true := by
  intro fuel
  induction fuel with
  | zero => intro is acc b h; simp [byteLoopF] at h
  | succ fuel ih =>
    intro is acc b h
    rcases he : extractHexUInt is with ⟨is', b?⟩
    cases b? with
    | none => simp [byteLoopF, he] at h
    | some v =>
      by_cases hv : v > 0xff
      · simp only [byteLoopF, he, if_pos hv]
      · simp only [byteLoopF, he, if_neg hv] at h ⊢
        exact ih is' (acc ++ [v]) b h

/-- When the loop reports an out-of-range byte, it has set the fail bit
(with the standard fuel). -/
theorem byteLoop_some_failed {is : WIStream} {acc : List Nat} {b : Nat}
    (h : (byteLoop is acc).2.2 = some b) : (byteLoop is acc).1.failed = true :=
  byteLoopF_some_failed _ is acc b h

/-- The fuel of the hexadecimal digit expansion is irrelevant once it reaches
the number being expanded. -/
theorem toHexDigitsF_congr : ∀ (f g n : Nat), n ≤ f → n ≤ g →
    toHexDigitsF f n = toHexDigitsF g n := by
  intro f
  induction f with
  | zero =>
    intro g n hf _
    have hn : n = 0 := by omega
    subst hn
    cases g with
    | zero => rfl
    | succ g => simp [toHexDigitsF]
  | succ f ih =>
    intro g n hf hg
    cases g with
    | zero =>
      have hn : n = 0 := by omega
      subst hn
      simp [toHexDigitsF]
    | succ g =>
      by_cases hn : n < 16
      · simp [toHexDigitsF, hn]
      · simp only [toHexDigitsF, if_neg hn]
        have hdiv : n / 16 < n := Nat.div_lt_self (by omega) (by norm_num)
        rw [ih g (n / 16) (by omega) (by omega)]

/-- Expansion of a single hexadecimal digit. -/
theorem toHexDigits_lt {n : Nat} (h : n < 16) : toHexDigits n = [hexDigitChar n] := by
  unfold toHexDigits
  cases n with
  | zero => simp [toHexDigitsF]
  | succ m => simp [toHexDigitsF, h]

/-- Expansion of a multi-digit number: high digits first, last digit last. -/
theorem toHexDigits_ge {n : Nat} (h : 16 ≤ n) :
    toHexDigits n = toHexDigits (n / 16) ++ [hexDigitChar (n % 16)] := by
  unfold toHexDigits
  obtain ⟨m, rfl⟩ : ∃ m, n = m + 1 := ⟨n - 1, by omega⟩
  simp only [toHexDigitsF, if_neg (show ¬ m + 1 < 16 by omega)]
  congr 1
  apply toHexDigitsF_congr
  · have := Nat.div_lt_self (show 0 < m + 1 by omega) (show 1 < 16 by norm_num)
    omega
  · exact le_refl _

/-- Each digit value below 16 renders to a character that parses back to it. -/
theorem hexDigitVal_hexDigitChar : ∀ d < 16, hexDigitVal (hexDigitChar d) = some d := by
  decide

/-- Each digit value below 16 renders to a decimal digit or lowercase
hexadecimal letter. -/
theorem hexDigitChar_lower : ∀ d < 16, isLowerHexChar (hexDigitChar d) = true := by
  decide

/-- The hexadecimal rendering of any number parses back to that number. -/
theorem hexCharsVal_toHexDigits (n : Nat) : hexCharsVal (toHexDigits n) = n := by
  induction n using Nat.strong_induction_on with
  | _ n ih =>
    by_cases h : n < 16
    · rw [toHexDigits_lt h]
      simp [hexCharsVal, digitsVal, hexDigitVal_hexDigitChar n h]
    · rw [toHexDigits_ge (by omega)]
      have hdiv : n / 16 < n := Nat.div_lt_self (by omega) (by norm_num)
      have ihd := ih (n / 16) hdiv
      simp only [hexCharsVal, digitsVal, List.map_append, List.foldl_append,
        List.map_cons, List.map_nil, List.foldl_cons, List.foldl_nil] at ihd ⊢
      rw [hexDigitVal_hexDigitChar (n % 16) (Nat.mod_lt n (by norm_num))]
      simp only [Option.getD_some]
      rw [ihd]
      omega

/-- The hexadecimal rendering of any number uses only decimal digits and
lowercase letters. -/
theorem toHexDigits_lower (n : Nat) : (toHexDigits n).all isLowerHexChar = true := by
  induction n using Nat.strong_induction_on with
  | _ n ih =>
    by_cases h : n < 16
    · rw [toHexDigits_lt h]
      simp [hexDigitChar_lower n h]
    · rw [toHexDigits_ge (by omega)]
      have hdiv : n / 16 < n := Nat.div_lt_self (by omega) (by norm_num)
      simp [List.all_append, ih (n / 16) hdiv,
        hexDigitChar_lower (n % 16) (Nat.mod_lt n (by norm_num))]

/-- A successful buffer extraction returns a non-empty byte vector, prints
nothing, and leaves the output basefield unchanged. -/
theorem opExtractBytes_success_shape (base : Base) (is : WIStream)
    (h : (opExtractBytes base is).is.failed = false) :
    (opExtractBytes base is).bytes ≠ [] ∧ (opExtractBytes base is).output = "" ∧
    (opExtractBytes base is).base = base := by
  cases h1 : (expect is '\x7b').failed with
  | true => simp [opExtractBytes, h1] at h
  | false =>
    rcases hb : byteLoop (expect is '\x7b') [] with ⟨is2, bytes, bad⟩
    cases bad with
    | some v =>
      have hf2 : is2.failed = true := by
        have h5 : (byteLoop (expect is '\x7b') []).1.failed = true :=
          byteLoop_some_failed (by rw [hb])
        rw [hb] at h5
        exact h5
      simp [opExtractBytes, h1, hb, hf2] at h
    | none =>
      cases hemp : bytes.isEmpty with
      | true => simp [opExtractBytes, h1, hb, hemp] at h
      | false =>
        cases h3 : (expect ⟨is2.input, false⟩ '\x7d').failed with
        | true => simp [opExtractBytes, h1, hb, hemp, h3] at h
        | false =>
          have hne : bytes ≠ [] := by
            cases bytes with
            | nil => simp at hemp
            | cons x xs => simp
          simp [opExtractBytes, h1, hb, hemp, h3, hne]

/-- A failed buffer extraction always prints a diagnostic. -/
theorem opExtractBytes_failed_output (base : Base) (is : WIStream)
    (h : (opExtractBytes base is).is.failed = true) : (opExtractBytes base is).output ≠ "" := by
  cases h1 : (expect is '\x7b').failed with
  | true =>
    simp [opExtractBytes, h1]
  | false =>
    rcases hb : byteLoop (expect is '\x7b') [] with ⟨is2, bytes, bad⟩
    cases bad with
    | some v =>
      simp only [opExtractBytes, h1]
      simp only [Bool.false_eq_true, if_false, hb]
      intro hcon
      have hlen : (toHexDigits v).length = 0 := by
        have h9 := congrArg (fun s => s.data.length) hcon
        simp [toHexString, String.data_append] at h9
      have h16 : toHexDigits v ≠ [] := by
        by_cases hv : v < 16
        · rw [toHexDigits_lt hv]; simp
        · rw [toHexDigits_ge (by omega)]; simp
      rw [List.length_eq_zero] at hlen
      exact h16 hlen
    | none =>
      cases hemp : bytes.isEmpty with
      | true =>
        simp [opExtractBytes, h1, hb, hemp]
      | false =>
        cases h3 : (expect ⟨is2.input, false⟩ '\x7d').failed with
        | true =>
          simp [opExtractBytes, h1, hb, hemp, h3]
        | false => simp [opExtractBytes, h1, hb, hemp, h3] at h

/-- Appending the empty string is the identity. -/
theorem str_append_nil (s : String) : s ++ "" = s := by
  cases s with
  | mk data => exact congrArg String.mk (List.append_nil data)

/-- Signedness of the wrapped difference: with both operands below 2^31 the
stored `int bytesRead` is positive exactly when the transferred count exceeds
the write length. -/
theorem toInt32_wrapSub_pos (bt len : Nat) (h1 : bt < 2147483648) (h2 : len < 2147483648) :
    (0 < toInt32 (wrapSub bt len)) ↔ len < bt := by
  simp only [wrapSub, toInt32]
  split <;> omega

/-- A write whose status is known does not fault. -/
theorem runWrite_not_faulted (device : Device) (base : Base) (buf : List Nat)
    (h : (device.writePartial buf).status.isKnown = true) :
    (runWrite device base buf).faulted = false := by
  rcases hw : device.writePartial buf with ⟨st, bt⟩
  rw [hw] at h
  cases st with
  | fullTransfer => simp [runWrite, hw]
  | partialTransfer => simp [runWrite, hw]
  | slaveAddressNotAcknowledged => simp [runWrite, hw]
  | unknownStatus c => simp [I2cTransferStatus.isKnown] at h

/-- A read whose status is known does not fault. -/
theorem runRead_not_faulted (device : Device) (base : Base) (n : Nat)
    (h : ((device.readPartial n).1).status.isKnown = true) :
    (runRead device base n).faulted = false := by
  rcases hr : device.readPartial n with ⟨⟨st, bt⟩, data⟩
  rw [hr] at h
  cases st with
  | fullTransfer => simp [runRead, hr]
  | partialTransfer => simp [runRead, hr]
  | slaveAddressNotAcknowledged => simp [runRead, hr]
  | unknownStatus c => simp [I2cTransferStatus.isKnown] at h

/-- A write-read whose status is known does not fault. -/
theorem runWriteRead_not_faulted (device : Device) (base : Base) (buf : List Nat) (n : Nat)
    (h : ((device.writeReadPartial buf n).1).status.isKnown = true) :
    (runWriteRead device base buf n).faulted = false := by
  rcases hw : device.writeReadPartial buf n with ⟨⟨st, bt⟩, data⟩
  rw [hw] at h
  cases st with
  | fullTransfer => simp [runWriteRead, hw]
  | partialTransfer =>
    simp only [runWriteRead, hw]
    split <;> rfl
  | slaveAddressNotAcknowledged => simp [runWriteRead, hw]
  | unknownStatus c => simp [I2cTransferStatus.isKnown] at h

/-- A read command always issues exactly one Read bus call, with the parsed
length. -/
theorem runRead_calls (device : Device) (base : Base) (n : Nat) :
    (runRead device base n).calls = [BusCall.read n] := by
  rcases hr : device.readPartial n with ⟨⟨st, bt⟩, data⟩
  cases st <;> simp [runRead, hr]

/-- A writeread command always issues exactly one WriteRead bus call. -/
theorem runWriteRead_calls (device : Device) (base : Base) (buf : List Nat) (n : Nat) :
    (runWriteRead device base buf n).calls = [BusCall.writeRead buf n] := by
  rcases hw : device.writeReadPartial buf n with ⟨⟨st, bt⟩, data⟩
  cases st <;> simp only [runWriteRead, hw] <;> first
  | rfl
  | (split <;> rfl)

/-- A line processed against a device that only reports known statuses never
faults. -/
theorem processLine_not_fault (device : Device) (base : Base) (line : String)
    (hw : ∀ buf, (device.writePartial buf).status.isKnown = true)
    (hr : ∀ n, ((device.readPartial n).1).status.isKnown = true)
    (hwr : ∀ buf n, ((device.writeReadPartial buf n).1).status.isKnown = true) :
    (processLine device base line).action ≠ LineAction.fault := by
  unfold processLine
  rcases hp : parseLine base line with ⟨p, b⟩
  cases p with
  | quitCmd => simp
  | helpCmd => simp
  | infoCmd => simp
  | emptyCmd => simp
  | unrecognizedCmd c => simp
  | errorCmd out => simp
  | writeCmd buf =>
    have hf := runWrite_not_faulted device b buf (hw buf)
    simp [ExecResult.toLineResult, hf]
  | readCmd n =>
    have hf := runRead_not_faulted device b n (hr n)
    simp [ExecResult.toLineResult, hf]
  | writeReadCmd buf n =>
    have hf := runWriteRead_not_faulted device b buf n (hwr buf n)
    simp [ExecResult.toLineResult, hf]

/-- The interactive loop never reports a fault against a device that only
reports known statuses. -/
theorem showPromptRun_no_fault (device : Device)
    (hw : ∀ buf, (device.writePartial buf).status.isKnown = true)
    (hr : ∀ n, ((device.readPartial n).1).status.isKnown = true)
    (hwr : ∀ buf n, ((device.writeReadPartial buf n).1).status.isKnown = true) :
    ∀ (lines : List String) (base : Base), (showPromptRun device base lines).2 = false := by
  intro lines
  induction lines with
  | nil => intro base; simp [showPromptRun]
  | cons l rest ih =>
    intro base
    rcases hpl : processLine device base l with ⟨out, b2, act, calls⟩
    have hact := processLine_not_fault device base l hw hr hwr
    rw [hpl] at hact
    simp only [showPromptRun, hpl]
    cases act with
    | quit => simp
    | fault => simp at hact
    | next =>
      rcases hsp : showPromptRun device b2 rest with ⟨o, f⟩
      have hf := ih b2
      rw [hsp] at hf
      simp [hsp]
      exact hf

/-- C7 (amended): a session that reaches the interactive loop terminates with
exit code 0 as long as every transfer status the device reports is one of the
three known variants — console-level errors are non-fatal; a transfer status
outside the known set (an EngineFault) escapes the loop as a `wexception` and
produces exit code 1, the same exit code as a device-acquisition failure. -/
theorem claim7_amended_theorem :
    (∀ (device : Device) (lines : List String),
      (∀ buf, (device.writePartial buf).status.isKnown = true) →
      (∀ n, ((device.readPartial n).1).status.isKnown = true) →
      (∀ buf n, ((device.writeReadPartial buf n).1).status.isKnown = true) →
      sessionExitCode device lines = 0) ∧
    (∀ (device : Device) (lines : List String),
      (showPromptRun device .dec lines).2 = true → sessionExitCode device lines = 1) := by
  constructor
  · intro device lines hw hr hwr
    unfold sessionExitCode
    rw [showPromptRun_no_fault device hw hr hwr lines .dec]
    simp
  · intro device lines h
    unfold sessionExitCode
    rw [h]
    simp

/-- C7 counterexample: a session that reached the interactive loop and issued
one write against a device reporting a status outside the known variants
exits with code 1, not 0 — in-session EngineFaults do produce a non-zero exit
code. -/
theorem claim7_counterexample :
    sessionExitCode faultDev ["write \x7b 1 \x7d"] = 1 ∧ (1 : Nat) ≠ 0 := by decide

/-- C7 witness: a concrete all-acknowledging session exits 0 and a concrete
faulting session exits 1. -/
theorem claim7_witness :
    sessionExitCode nackDev ["read 4"] = 0 ∧ sessionExitCode faultDev ["read 4"] = 1 :=
  ⟨claim7_amended_theorem.1 nackDev ["read 4"] (fun _ => rfl) (fun _ => rfl) (fun _ _ => rfl),
   claim7_amended_theorem.2 faultDev ["read 4"] (by decide)⟩

/-- C2: for every command kind, a SlaveAddressNotAcknowledged transfer status
yields exactly the fixed message "Slave address was not acknowledged", with
no data bytes rendered (the whole output is that message), the basefield
untouched, and no fault, regardless of the reported byte count. -/
theorem claim2_theorem :
    (∀ (device : Device) (base : Base) (buf : List Nat),
      (device.writePartial buf).status = .slaveAddressNotAcknowledged →
      runWrite device base buf =
        ⟨"Slave address was not acknowledged\n", base, false, [.write buf]⟩) ∧
    (∀ (device : Device) (base : Base) (n : Nat),
      ((device.readPartial n).1).status = .slaveAddressNotAcknowledged →
      runRead device base n =
        ⟨"Slave address was not acknowledged\n", base, false, [.read n]⟩) ∧
    (∀ (device : Device) (base : Base) (buf : List Nat) (n : Nat),
      ((device.writeReadPartial buf n).1).status = .slaveAddressNotAcknowledged →
      runWriteRead device base buf n =
        ⟨"Slave address was not acknowledged\n", base, false, [.writeRead buf n]⟩) := by
  refine ⟨?_, ?_, ?_⟩
  · intro device base buf h
    rcases hw : device.writePartial buf with ⟨st, bt⟩
    rw [hw] at h
    dsimp only at h
    subst h
    simp [runWrite, hw]
  · intro device base n h
    rcases hr : device.readPartial n with ⟨⟨st, bt⟩, data⟩
    rw [hr] at h
    dsimp only at h
    subst h
    simp [runRead, hr]
  · intro device base buf n h
    rcases hw : device.writeReadPartial buf n with ⟨⟨st, bt⟩, data⟩
    rw [hw] at h
    dsimp only at h
    subst h
    simp [runWriteRead, hw]

/-- C2 witness: the fixed message and empty data hold at a concrete device
reporting SlaveAddressNotAcknowledged for each of the three kinds. -/
theorem claim2_witness :
    runWrite nackDev .dec [0x01] =
      ⟨"Slave address was not acknowledged\n", .dec, false, [.write [0x01]]⟩ ∧
    runRead nackDev .dec 4 =
      ⟨"Slave address was not acknowledged\n", .dec, false, [.read 4]⟩ ∧
    runWriteRead nackDev .dec [0x01] 4 =
      ⟨"Slave address was not acknowledged\n", .dec, false, [.writeRead [0x01] 4]⟩ :=
  ⟨claim2_theorem.1 nackDev .dec [0x01] rfl,
   claim2_theorem.2.1 nackDev .dec 4 rfl,
   claim2_theorem.2.2 nackDev .dec [0x01] 4 rfl⟩

/-- C3 (amended): for a read command ending in PartialTransfer(n), the output
is the line "Partial Transfer. Transferred {n} bytes" (the count rendered in
the stream's current basefield) followed by the ENTIRE requested-length read
buffer — the captured bytes first, then the remaining zero-initialised
entries — each byte preceded by one space; not just the captured bytes. -/
theorem claim3_amended_theorem (device : Device) (base : Base) (n bt : Nat) (data : List Nat)
    (h : device.readPartial n = (⟨.partialTransfer, bt⟩, data)) (hlen : data.length ≤ n) :
    (runRead device base n).output =
      "Partial Transfer. Transferred " ++ renderNat base bt ++ " bytes\n" ++
        formatBytes (data ++ List.replicate (n - data.length) 0) ++ "\n" ∧
    (runRead device base n).faulted = false ∧
    (runRead device base n).calls = [BusCall.read n] := by
  have hfit : fitBuffer n data = data ++ List.replicate (n - data.length) 0 := by
    unfold fitBuffer
    rw [List.take_of_length_le hlen]
  refine ⟨?_, ?_, ?_⟩ <;> simp [runRead, h, hfit]

/-- C3 counterexample: `read 4` against a device returning PartialTransfer(2)
with deposited bytes 0x11 0x22 prints the whole four-entry buffer with a
leading space and single-digit zeros — not the claimed "11 22". -/
theorem claim3_counterexample :
    (processLine pr2Dev .dec "read 4").output
        = "Partial Transfer. Transferred 2 bytes\n 11 22 0 0\n" ∧
    (processLine pr2Dev .dec "read 4").output
        ≠ "Partial Transfer. Transferred 2 bytes\n11 22" ∧
    (processLine pr2Dev .dec "read 4").output
        ≠ "Partial Transfer. Transferred 2 bytes\n11 22\n" := by decide

/-- C3 witness: the amended read-partial output shape at a concrete device. -/
theorem claim3_witness :
    (runRead pr2Dev .dec 4).output =
      "Partial Transfer. Transferred " ++ renderNat .dec 2 ++ " bytes\n" ++
        formatBytes ([0x11, 0x22] ++ List.replicate (4 - [0x11, 0x22].length) 0) ++ "\n" :=
  (claim3_amended_theorem pr2Dev .dec 4 2 [0x11, 0x22] rfl (by norm_num)).1

/-- C4 (amended): the byte formatter renders each byte as ONE SPACE followed
by its unpadded lowercase hexadecimal value (no "0x", no two-digit padding):
the rendering of every number parses back to it and uses only decimal digits
and lowercase letters, [0x0a, 0xff] renders to " a ff", and a FullTransfer
read prints exactly the formatted buffer and a newline. -/
theorem claim4_amended_theorem :
    (∀ n : Nat, hexCharsVal (toHexDigits n) = n ∧ (toHexDigits n).all isLowerHexChar = true) ∧
    formatBytes [0x0a, 0xff] = " a ff" ∧
    (∀ (device : Device) (base : Base) (n bt : Nat) (data : List Nat),
      device.readPartial n = (⟨.fullTransfer, bt⟩, data) →
      (runRead device base n).output = formatBytes (fitBuffer n data) ++ "\n") := by
  refine ⟨fun n => ⟨hexCharsVal_toHexDigits n, toHexDigits_lower n⟩, by decide, ?_⟩
  intro device base n bt data h
  simp [runRead, h]

/-- C4 counterexample: formatting a FullTransfer outcome for Read with bytes
[0x0a, 0xff] yields " a ff" (leading space, no zero padding), not the claimed
"0a ff". -/
theorem claim4_counterexample :
    (processLine fr2Dev .dec "read 2").output = " a ff\n" ∧
    (processLine fr2Dev .dec "read 2").output ≠ "0a ff\n" ∧
    (processLine fr2Dev .dec "read 2").output ≠ "0a ff" ∧
    formatBytes [0x0a, 0xff] ≠ "0a ff" := by decide

/-- C4 witness: the FullTransfer clause of the amended theorem at a concrete
device. -/
theorem claim4_witness :
    (runRead fr2Dev .dec 2).output = formatBytes (fitBuffer 2 [0x0a, 0xff]) ++ "\n" :=
  claim4_amended_theorem.2.2 fr2Dev .dec 2 2 [0x0a, 0xff] rfl

/-- C1 (amended): for a WriteRead transaction ending in PartialTransfer, the
engine computes `transferred_count - write_length` in wrapping 32-bit
arithmetic reinterpreted as a signed int; when that difference is positive it
renders the ENTIRE returned read buffer (all requestedLength entries), not a
prefix of that many bytes, and otherwise renders no data. -/
theorem claim1_amended_theorem (device : Device) (base : Base) (buf : List Nat) (n bt : Nat)
    (data : List Nat)
    (h : device.writeReadPartial buf n = (⟨.partialTransfer, bt⟩, data))
    (hbt : bt < 2147483648) (hlen : buf.length < 2147483648) :
    (runWriteRead device base buf n).output =
      "Partial Transfer. Transferred " ++ renderNat base bt ++ " bytes\n" ++
        (if buf.length < bt then formatBytes (fitBuffer n data) ++ "\n" else "") ∧
    (runWriteRead device base buf n).faulted = false ∧
    (runWriteRead device base buf n).calls = [BusCall.writeRead buf n] := by
  by_cases hgt : buf.length < bt
  · have hpos : 0 < toInt32 (wrapSub bt buf.length) :=
      (toInt32_wrapSub_pos bt buf.length hbt hlen).2 hgt
    refine ⟨?_, ?_, ?_⟩ <;>
      simp only [runWriteRead, h, if_pos hpos, if_pos hgt] <;>
      simp [str_append_assoc]
  · have hneg : ¬ 0 < toInt32 (wrapSub bt buf.length) := by
      rw [toInt32_wrapSub_pos bt buf.length hbt hlen]
      exact hgt
    refine ⟨?_, ?_, ?_⟩ <;>
      simp only [runWriteRead, h, if_neg hneg, if_neg hgt] <;>
      simp [str_append_nil]

/-- C1 counterexample: write length 3 with combined transferred count 5 and
requested read length 4 renders all four buffer entries, not the two bytes
the claim derives. -/
theorem claim1_counterexample :
    (processLine wr5Dev .dec "writeread \x7b 1 2 3 \x7d 4").output
        = "Partial Transfer. Transferred 5 bytes\n 11 22 33 44\n" ∧
    (processLine wr5Dev .dec "writeread \x7b 1 2 3 \x7d 4").output
        ≠ "Partial Transfer. Transferred 5 bytes\n 11 22\n" := by decide

/-- C1 witness: the amended write-read partial shape at a concrete device
with write length 3 and combined count 5. -/
theorem claim1_witness :
    (runWriteRead wr5Dev .dec [1, 2, 3] 4).output =
      "Partial Transfer. Transferred " ++ renderNat .dec 5 ++ " bytes\n" ++
        (if [1, 2, 3].length < 5 then formatBytes (fitBuffer 4 [0x11, 0x22, 0x33, 0x44]) ++ "\n"
          else "") :=
  (claim1_amended_theorem wr5Dev .dec [1, 2, 3] 4 5 [0x11, 0x22, 0x33, 0x44] rfl
      (by norm_num) (by norm_num)).1

/-- C5: both "{ }" and "{}" fail with the zero-length diagnostic and leave
the stream failed (no buffer is handed to the caller), and in general a
successful parse never returns a zero-length buffer. -/
theorem claim5_theorem :
    ((opExtractBytes .dec ⟨"\x7b \x7d".data, false⟩).is.failed = true ∧
      (opExtractBytes .dec ⟨"\x7b \x7d".data, false⟩).output
        = "Zero-length buffers are not allowed\n") ∧
    ((opExtractBytes .dec ⟨"\x7b\x7d".data, false⟩).is.failed = true ∧
      (opExtractBytes .dec ⟨"\x7b\x7d".data, false⟩).output
        = "Zero-length buffers are not allowed\n") ∧
    (∀ (base : Base) (is : WIStream),
      (opExtractBytes base is).is.failed = false → (opExtractBytes base is).bytes ≠ []) :=
  ⟨by decide, by decide,
   fun base is h => (opExtractBytes_success_shape base is h).1⟩

/-- C5 witness: a successful concrete parse has an unfailed stream and a
non-empty buffer. -/
theorem claim5_witness :
    (opExtractBytes .dec ⟨"\x7b aa \x7d".data, false⟩).is.failed = false ∧
    (opExtractBytes .dec ⟨"\x7b aa \x7d".data, false⟩).bytes ≠ [] :=
  ⟨by decide, claim5_theorem.2.2 .dec ⟨"\x7b aa \x7d".data, false⟩ (by decide)⟩

/-- C9 (amended): the byte-buffer parser consumes input and, on success,
prints nothing; but on failure it prints one diagnostic message to the output
stream ITSELF, in addition to signalling the error to the caller (which adds
a usage hint). -/
theorem claim9_amended_theorem (base : Base) (is : WIStream) :
    ((opExtractBytes base is).is.failed = false → (opExtractBytes base is).output = "") ∧
    ((opExtractBytes base is).is.failed = true → (opExtractBytes base is).output ≠ "") :=
  ⟨fun h => (opExtractBytes_success_shape base is h).2.1,
   fun h => opExtractBytes_failed_output base is h⟩

/-- C9 counterexample: on the malformed input "{}" the parser itself prints
the zero-length diagnostic — its side effects are not limited to consuming
input. -/
theorem claim9_counterexample :
    (opExtractBytes .dec ⟨['\x7b', '\x7d'], false⟩).output
        = "Zero-length buffers are not allowed\n" ∧
    (opExtractBytes .dec ⟨['\x7b', '\x7d'], false⟩).output ≠ "" := by decide

/-- C9 witness: the amended parser side-effect contract at a successful and
at a failing concrete input. -/
theorem claim9_witness :
    (opExtractBytes .dec ⟨"\x7b 0a \x7d".data, false⟩).output = "" ∧
    (opExtractBytes .dec ⟨"\x7b q".data, false⟩).output ≠ "" :=
  ⟨(claim9_amended_theorem .dec ⟨"\x7b 0a \x7d".data, false⟩).1 (by decide),
   (claim9_amended_theorem .dec ⟨"\x7b q".data, false⟩).2 (by decide)⟩

/-- Whitespace characters are not hexadecimal digits. -/
theorem hexDigitVal_of_space {c : Char} (h : isspaceW c = true) : hexDigitVal c = none := by
  simp only [isspaceW, Bool.or_eq_true, beq_iff_eq] at h
  rcases h with ((((h | h) | h) | h) | h) | h <;> subst h <;> decide

/-- Whitespace characters are not decimal digits. -/
theorem decDigitVal_of_space {c : Char} (h : isspaceW c = true) : decDigitVal c = none := by
  simp only [isspaceW, Bool.or_eq_true, beq_iff_eq] at h
  rcases h with ((((h | h) | h) | h) | h) | h <;> subst h <;> decide

/-- A span over a run of classified characters followed by an unclassified
remainder consumes exactly the run. -/
theorem spanWith_all_append (f : Char → Option Nat) (t r : List Char)
    (hall : ∀ c ∈ t, (f c).isSome = true) (hr : headNone f r) :
    spanWith f (t ++ r) = (t.map (fun c => (f c).getD 0), r) := by
  induction t with
  | nil =>
    cases r with
    | nil => simp [spanWith]
    | cons c cs =>
      simp only [headNone] at hr
      simp [spanWith, hr]
  | cons c cs ih =>
    have hc : (f c).isSome = true := hall c (by simp)
    rcases hfc : f c with _ | a
    · rw [hfc] at hc; simp at hc
    · have ih2 := ih (fun x hx => hall x (by simp [hx]))
      simp [spanWith, hfc, ih2]

/-- Numeric extraction of a single whitespace-preceded digit token: the token
is consumed whole; its value is returned when it fits in 32 bits, otherwise
the extraction fails having consumed it. -/
theorem extractUInt_token_step (dv : Char → Option Nat) (b : Nat) (t r : List Char)
    (hsp : ∀ c, isspaceW c = true → dv c = none)
    (ht : t ≠ []) (hall : ∀ c ∈ t, (dv c).isSome = true) (hr : headNone dv r) :
    extractUInt dv b ⟨' ' :: (t ++ r), false⟩ =
      if digitsVal b (t.map fun c => (dv c).getD 0) ≤ UINT_MAX
      then (⟨r, false⟩, some (digitsVal b (t.map fun c => (dv c).getD 0)))
      else (⟨r, true⟩, none) := by
  cases t with
  | nil => exact absurd rfl ht
  | cons c cs =>
    have hc : (dv c).isSome = true := hall c (by simp)
    have hcs : isspaceW c = false := by
      cases hsc : isspaceW c
      · rfl
      · rw [hsp c hsc] at hc; simp at hc
    have hsp' : isspaceW ' ' = true := by decide
    have hskip : skipWs (' ' :: ((c :: cs) ++ r)) = (c :: cs) ++ r := by
      simp [skipWs, hsp', hcs]
    have hspan := spanWith_all_append dv (c :: cs) r hall hr
    simp only [extractUInt, Bool.false_eq_true, if_false]
    rw [hskip, hspan]
    simp [List.map_cons]

/-- The tail of a rendered token sequence always starts with a space. -/
theorem tokensTail_cons_space (toks : List (List Char)) :
    ∃ w, tokensTail toks = ' ' :: w := by
  cases toks with
  | nil => exact ⟨['\x7d'], rfl⟩
  | cons t ts => exact ⟨t ++ tokensTail ts, rfl⟩

/-- Hexadecimal extraction consumes exactly the next token of a rendered
token sequence. -/
theorem extractHex_tok_step (t : List Char) (ts : List (List Char)) (ht : HexTok t) :
    extractHexUInt ⟨tokensTail (t :: ts), false⟩ =
      if tokVal t ≤ UINT_MAX then (⟨tokensTail ts, false⟩, some (tokVal t))
      else (⟨tokensTail ts, true⟩, none) := by
  have h1 : tokensTail (t :: ts) = ' ' :: (t ++ tokensTail ts) := rfl
  rw [h1]
  obtain ⟨w, hw⟩ := tokensTail_cons_space ts
  have hr : headNone hexDigitVal (tokensTail ts) := by
    rw [hw]
    simp only [headNone]
    decide
  exact extractUInt_token_step hexDigitVal 16 t (tokensTail ts)
    (fun c h => hexDigitVal_of_space h) ht.1 ht.2 hr

/-- The byte-gathering loop over a rendered token sequence accepts the good
tokens in order and stops at the first token above 0xff (representable in 32
bits), reporting it out of range. -/
theorem byteLoop_tokens (bad : List Char) (rest : List (List Char))
    (hbad : HexTok bad) (hbig : 0xff < tokVal bad) (hmax : tokVal bad ≤ UINT_MAX) :
    ∀ (good : List (List Char)), (∀ t ∈ good, HexTok t ∧ tokVal t ≤ 0xff) →
    ∀ acc : List Nat, ∃ l : List Char,
      byteLoop ⟨tokensTail (good ++ bad :: rest), false⟩ acc =
        (⟨l, true⟩, acc ++ good.map tokVal, some (tokVal bad)) := by
  intro good
  induction good with
  | nil =>
    intro _ acc
    refine ⟨tokensTail rest, ?_⟩
    rw [byteLoop_eq]
    have hstep := extractHex_tok_step bad rest hbad
    rw [if_pos hmax] at hstep
    simp only [List.nil_append]
    rw [hstep]
    simp [hbig]
  | cons t ts ih =>
    intro hgood acc
    have hts := ih (fun x hx => hgood x (by simp [hx]))
    have httok : HexTok t ∧ tokVal t ≤ 0xff := hgood t (by simp)
    obtain ⟨l, hl⟩ := hts (acc ++ [tokVal t])
    refine ⟨l, ?_⟩
    rw [byteLoop_eq]
    have hstep := extractHex_tok_step t (ts ++ bad :: rest) httok.1
    rw [if_pos (le_trans httok.2 (by norm_num [UINT_MAX]))] at hstep
    simp only [List.cons_append]
    rw [hstep]
    have hnot : ¬ tokVal t > 0xff := by omega
    simp only [hnot, if_false]
    rw [hl]
    simp

/-- C6 (amended): any rendered token sequence containing a token whose value
exceeds 0xFF but is representable in the 32-bit extractor makes the parser
fail with the out-of-range diagnostic for the first such token, aborting the
whole buffer; the switched basefield records that the diagnostic printed the
value through std::hex.  (A token whose value exceeds 0xFFFFFFFF instead
makes the numeric extraction itself fail, ending the token list early, so
earlier valid tokens can still be returned — see the counterexample.) -/
theorem claim6_amended_theorem (base : Base) (good : List (List Char)) (bad : List Char)
    (rest : List (List Char))
    (hgood : ∀ t ∈ good, HexTok t ∧ tokVal t ≤ 0xff)
    (hbad : HexTok bad) (hbig : 0xff < tokVal bad) (hmax : tokVal bad ≤ UINT_MAX) :
    (opExtractBytes base ⟨tokensInput (good ++ bad :: rest), false⟩).is.failed = true ∧
    (opExtractBytes base ⟨tokensInput (good ++ bad :: rest), false⟩).output =
      "Out of range [0, 0xff]: " ++ toHexString (tokVal bad) ++ "\n" ∧
    (opExtractBytes base ⟨tokensInput (good ++ bad :: rest), false⟩).base = Base.hex := by
  obtain ⟨l, hl⟩ := byteLoop_tokens bad rest hbad hbig hmax good hgood []
  have hexp : expect ⟨tokensInput (good ++ bad :: rest), false⟩ '\x7b'
      = ⟨tokensTail (good ++ bad :: rest), false⟩ := rfl
  simp [opExtractBytes, hexp, hl]

/-- C6 counterexample: the token sequence "{ aa ffffffffff }" contains the
token ffffffffff whose value exceeds 0xFF, yet the parser succeeds and
returns the partial buffer [0xaa]: the oversized token overflows the 32-bit
extraction, which ends the token loop with a stream failure the parser then
clears. -/
theorem claim6_counterexample :
    (opExtractBytes .dec ⟨"\x7b aa ffffffffff \x7d".data, false⟩).is.failed = false ∧
    (opExtractBytes .dec ⟨"\x7b aa ffffffffff \x7d".data, false⟩).bytes = [0xaa] ∧
    0xff < tokVal ['f', 'f', 'f', 'f', 'f', 'f', 'f', 'f', 'f', 'f'] := by decide

/-- C6 witness: the amended out-of-range abort at the concrete input
"{ 100 }". -/
theorem claim6_witness :
    (opExtractBytes .dec ⟨tokensInput [['1', '0', '0']], false⟩).is.failed = true ∧
    (opExtractBytes .dec ⟨tokensInput [['1', '0', '0']], false⟩).output =
      "Out of range [0, 0xff]: " ++ toHexString (tokVal ['1', '0', '0']) ++ "\n" ∧
    (opExtractBytes .dec ⟨tokensInput [['1', '0', '0']], false⟩).base = Base.hex := by
  have h := claim6_amended_theorem .dec [] ['1', '0', '0'] []
    (by simp) ⟨by decide, by decide⟩ (by decide) (by decide)
  simpa using h

/-- Decimal extraction of a whitespace-preceded digit run that ends the
line consumes it whole and returns its value. -/
theorem extractDec_digits (ds : List Char) (hne : ds ≠ [])
    (hall : ∀ c ∈ ds, (decDigitVal c).isSome = true) (hmax : decTokVal ds ≤ UINT_MAX) :
    extractDecUInt ⟨' ' :: ds, false⟩ = (⟨[], false⟩, some (decTokVal ds)) := by
  have h := extractUInt_token_step decDigitVal 10 ds []
    (fun c hc => decDigitVal_of_space hc) hne hall (by simp [headNone])
  rw [List.append_nil] at h
  have hmax' : digitsVal 10 (List.map (fun c => (decDigitVal c).getD 0) ds) ≤ UINT_MAX := hmax
  show extractUInt decDigitVal 10 ⟨' ' :: ds, false⟩ = _
  rw [h, if_pos hmax']
  rfl

/-- The command parser accepts `read` followed by any decimal digit run that
fits in 32 bits, with no positivity check on the value. -/
theorem parseLine_read (base : Base) (ds : List Char) (hne : ds ≠ [])
    (hall : ∀ c ∈ ds, (decDigitVal c).isSome = true) (hmax : decTokVal ds ≤ UINT_MAX) :
    parseLine base ("read " ++ String.mk ds) = (.readCmd (decTokVal ds), base) := by
  have e1 : parseLine base ("read " ++ String.mk ds)
      = readStep base (extractDecUInt ⟨' ' :: ds, false⟩) := rfl
  rw [e1, extractDec_digits ds hne hall hmax]
  rfl

/-- C8 (amended): the requested read length of `read` (and `writeread`) is
parsed as a plain unsigned decimal integer with NO positivity check: every
parsed value, including 0, is issued to the bus handle as the requested
length of the Read (resp. WriteRead) transaction. -/
theorem claim8_amended_theorem :
    (∀ (device : Device) (base : Base) (ds : List Char),
      ds ≠ [] → (∀ c ∈ ds, (decDigitVal c).isSome = true) → decTokVal ds ≤ UINT_MAX →
      (processLine device base ("read " ++ String.mk ds)).calls
        = [BusCall.read (decTokVal ds)]) ∧
    (∀ (device : Device) (base : Base),
      (processLine device base "writeread \x7b aa \x7d 0").calls
        = [BusCall.writeRead [0xaa] 0]) := by
  constructor
  · intro device base ds hne hall hmax
    have hp := parseLine_read base ds hne hall hmax
    unfold processLine
    rw [hp]
    simp only [ExecResult.toLineResult]
    exact runRead_calls device base (decTokVal ds)
  · intro device base
    have hp : parseLine base "writeread \x7b aa \x7d 0" = (.writeReadCmd [0xaa] 0, base) := rfl
    unfold processLine
    rw [hp]
    simp only [ExecResult.toLineResult]
    exact runWriteRead_calls device base [0xaa] 0

/-- C8 counterexample: the command `read 0` parses successfully and issues a
Read transaction with requested length 0 to the bus handle — no
greater-than-zero validation exists. -/
theorem claim8_counterexample :
    (processLine nackDev .dec "read 0").calls = [BusCall.read 0] ∧
    (processLine nackDev .dec "read 0").output = "Slave address was not acknowledged\n" := by
  decide

/-- C8 witness: the amended no-positivity-check contract at the digit string
"0" and at a concrete writeread command. -/
theorem claim8_witness :
    (processLine nackDev .dec ("read " ++ String.mk ['0'])).calls
      = [BusCall.read (decTokVal ['0'])] ∧
    (processLine nackDev .dec "writeread \x7b aa \x7d 0").calls
      = [BusCall.writeRead [0xaa] 0] :=
  ⟨claim8_amended_theorem.1 nackDev .dec ['0'] (by decide) (by decide) (by decide),
   claim8_amended_theorem.2 nackDev .dec⟩

/-- Appending input beyond a non-exhausted whitespace skip is invisible to
it. -/
theorem skipWs_append_of_ne (s : List Char) : ∀ a : List Char, skipWs a ≠ [] →
    skipWs (a ++ s) = skipWs a ++ s := by
  intro a
  induction a with
  | nil => intro h; simp [skipWs] at h
  | cons c rest ih =>
    intro h
    cases hc : isspaceW c with
    | true =>
      have h2 : skipWs rest ≠ [] := by
        simpa [skipWs, hc] using h
      simpa [skipWs, hc] using ih h2
    | false => simp [skipWs, hc]

/-- Appending input after a span that stopped at a remaining character does
not change what the span consumed. -/
theorem spanWith_append_of_rem_ne {α : Type} (f : Char → Option α) (s : List Char) :
    ∀ a : List Char, (spanWith f a).2 ≠ [] →
    spanWith f (a ++ s) = ((spanWith f a).1, (spanWith f a).2 ++ s) := by
  intro a
  induction a with
  | nil => intro h; simp [spanWith] at h
  | cons c rest ih =>
    intro h
    rcases hf : f c with _ | v
    · simp [spanWith, hf]
    · have h2 : (spanWith f rest).2 ≠ [] := by
        simpa [spanWith, hf] using h
      simp [spanWith, hf, ih h2]

/-- Appending an unclassified-head suffix after a span that consumed its
whole input does not change what the span consumed. -/
theorem spanWith_append_of_rem_nil {α : Type} (f : Char → Option α) (s : List Char)
    (hs : headNone f s) :
    ∀ a : List Char, (spanWith f a).2 = [] →
    spanWith f (a ++ s) = ((spanWith f a).1, s) := by
  intro a
  induction a with
  | nil =>
    intro _
    cases s with
    | nil => simp [spanWith]
    | cons c cs =>
      simp only [headNone] at hs
      simp [spanWith, hs]
  | cons c rest ih =>
    intro h
    rcases hf : f c with _ | v
    · simp [spanWith, hf] at h
    · have h2 : (spanWith f rest).2 = [] := by
        simpa [spanWith, hf] using h
      simp [spanWith, hf, ih h2]

/-- A span with an empty classified part left its whole input unconsumed. -/
theorem spanWith_nil_rem {α : Type} (f : Char → Option α) (l : List Char)
    (h : (spanWith f l).1 = []) : (spanWith f l).2 = l := by
  cases l with
  | nil => rfl
  | cons c rest =>
    rcases hf : f c with _ | v
    · simp [spanWith, hf]
    · simp [spanWith, hf] at h

/-- Composite: the span after the whitespace skip is append-stable when the
span stopped early or the suffix head is unclassified. -/
theorem span_skip_append {α : Type} (f : Char → Option α) (a s : List Char) (d : α)
    (ds : List α) (r : List Char)
    (hsp : spanWith f (skipWs a) = (d :: ds, r))
    (hcond : r ≠ [] ∨ headNone f s) :
    spanWith f (skipWs (a ++ s)) = (d :: ds, r ++ s) := by
  have hne : skipWs a ≠ [] := by
    intro hnil
    rw [hnil] at hsp
    simp [spanWith] at hsp
  rw [skipWs_append_of_ne s a hne]
  by_cases hr : r = []
  · rcases hcond with hcond | hcond
    · exact absurd hr hcond
    · subst hr
      have := spanWith_append_of_rem_nil f s hcond (skipWs a) (by rw [hsp])
      rw [hsp] at this
      simpa using this
  · have := spanWith_append_of_rem_ne f s (skipWs a) (by rw [hsp]; exact hr)
    rw [hsp] at this
    simpa using this

/-- A successful numeric extraction leaves an unfailed stream. -/
theorem extractUInt_some_shape {dv : Char → Option Nat} {b : Nat} {a : List Char}
    {is' : WIStream} {v : Nat} (h : extractUInt dv b ⟨a, false⟩ = (is', some v)) :
    is'.failed = false := by
  rcases hsp : spanWith dv (skipWs a) with ⟨ds, rest⟩
  cases ds with
  | nil => simp [extractUInt, hsp] at h
  | cons d ds =>
    by_cases hv : digitsVal b (d :: ds) ≤ UINT_MAX
    · simp only [extractUInt, Bool.false_eq_true, if_false, hsp, if_pos hv,
        Prod.mk.injEq] at h
      rw [← h.1]
    · simp [extractUInt, hsp, if_neg hv] at h

/-- A failed numeric extraction leaves a failed stream. -/
theorem extractUInt_none_shape {dv : Char → Option Nat} {b : Nat} {a : List Char}
    {is' : WIStream} (h : extractUInt dv b ⟨a, false⟩ = (is', none)) :
    is'.failed = true := by
  rcases hsp : spanWith dv (skipWs a) with ⟨ds, rest⟩
  cases ds with
  | nil =>
    simp only [extractUInt, Bool.false_eq_true, if_false, hsp, Prod.mk.injEq] at h
    rw [← h.1]
  | cons d ds =>
    by_cases hv : digitsVal b (d :: ds) ≤ UINT_MAX
    · simp [extractUInt, hsp, if_pos hv] at h
    · simp only [extractUInt, Bool.false_eq_true, if_false, hsp, if_neg hv,
        Prod.mk.injEq] at h
      rw [← h.1]

/-- A successful numeric extraction is append-stable: appending input after
the point where it stopped (or a digitless suffix when it consumed
everything) yields the same value with the suffix left unconsumed. -/
theorem extractUInt_some_append {dv : Char → Option Nat} {b : Nat} {a r : List Char}
    {v : Nat} (s : List Char)
    (h : extractUInt dv b ⟨a, false⟩ = (⟨r, false⟩, some v))
    (hcond : r ≠ [] ∨ headNone dv s) :
    extractUInt dv b ⟨a ++ s, false⟩ = (⟨r ++ s, false⟩, some v) := by
  rcases hsp : spanWith dv (skipWs a) with ⟨ds, rest⟩
  cases ds with
  | nil => simp [extractUInt, hsp] at h
  | cons d ds =>
    by_cases hv : digitsVal b (d :: ds) ≤ UINT_MAX
    · simp only [extractUInt, Bool.false_eq_true, if_false, hsp, if_pos hv,
        Prod.mk.injEq, WIStream.mk.injEq, Option.some.injEq] at h
      obtain ⟨⟨hrest, -⟩, hv'⟩ := h
      subst hrest
      have hspp := span_skip_append dv a s d ds rest hsp hcond
      simp only [extractUInt, Bool.false_eq_true, if_false, hspp, if_pos hv]
      rw [hv']
    · simp [extractUInt, hsp, if_neg hv] at h

/-- A failed numeric extraction that stopped at a remaining character is
append-stable. -/
theorem extractUInt_none_append {dv : Char → Option Nat} {b : Nat} {a r : List Char}
    (s : List Char)
    (h : extractUInt dv b ⟨a, false⟩ = (⟨r, true⟩, none)) (hr : r ≠ []) :
    extractUInt dv b ⟨a ++ s, false⟩ = (⟨r ++ s, true⟩, none) := by
  rcases hsp : spanWith dv (skipWs a) with ⟨ds, rest⟩
  cases ds with
  | nil =>
    have hrest : rest = skipWs a := by
      have h0 := spanWith_nil_rem dv (skipWs a) (by rw [hsp])
      rw [hsp] at h0
      exact h0
    simp only [extractUInt, Bool.false_eq_true, if_false, hsp, Prod.mk.injEq,
      WIStream.mk.injEq] at h
    have hsk : skipWs a = r := by rw [← hrest]; exact h.1.1
    have hne : skipWs a ≠ [] := by rw [hsk]; exact hr
    have hskips : skipWs (a ++ s) = skipWs a ++ s := skipWs_append_of_ne s a hne
    have hspr : spanWith dv r = ([], r) := by
      rw [← hsk]
      rw [hrest] at hsp
      exact hsp
    have hsp2 : spanWith dv (skipWs (a ++ s)) = ([], r ++ s) := by
      rw [hskips, hsk]
      cases hrcase : r with
      | nil => exact absurd hrcase hr
      | cons c cs =>
        have hfc : dv c = none := by
          rw [hrcase] at hspr
          rcases hfc2 : dv c with _ | w
          · rfl
          · simp [spanWith, hfc2] at hspr
        simp [spanWith, hfc]
    simp [extractUInt, hsp2]
  | cons d ds =>
    by_cases hv : digitsVal b (d :: ds) ≤ UINT_MAX
    · simp [extractUInt, hsp, if_pos hv] at h
    · simp only [extractUInt, Bool.false_eq_true, if_false, hsp, if_neg hv,
        Prod.mk.injEq, WIStream.mk.injEq] at h
      have hre : rest = r := h.1.1
      rw [hre] at hsp
      have hspp := span_skip_append dv a s d ds r hsp (Or.inl hr)
      simp [extractUInt, hspp, if_neg hv]

/-- A successful command-token extraction is append-stable under a
whitespace-or-empty suffix. -/
theorem extractToken_append {a r : List Char} {tok : String} (s : List Char)
    (h : extractToken ⟨a, false⟩ = (⟨r, false⟩, tok))
    (hs : headNone tokChar s) :
    extractToken ⟨a ++ s, false⟩ = (⟨r ++ s, false⟩, tok) := by
  rcases hsp : spanWith tokChar (skipWs a) with ⟨ds, rest⟩
  cases ds with
  | nil => simp [extractToken, hsp] at h
  | cons c cs =>
    simp only [extractToken, Bool.false_eq_true, if_false, hsp, List.isEmpty_cons,
      Prod.mk.injEq, WIStream.mk.injEq] at h
    have hre : rest = r := h.1.1
    have htok : String.mk (c :: cs) = tok := h.2
    rw [hre] at hsp
    have hspp := span_skip_append tokChar a s c cs r hsp (Or.inr hs)
    simp only [extractToken, Bool.false_eq_true, if_false, hspp, List.isEmpty_cons]
    rw [htok]

/-- The delimiter scanner is append-stable on success. -/
theorem expectLoop_append (delim : Char) (s : List Char) : ∀ a r : List Char,
    expectLoop delim a = ⟨r, false⟩ → expectLoop delim (a ++ s) = ⟨r ++ s, false⟩ := by
  intro a
  induction a with
  | nil => intro r h; simp [expectLoop] at h
  | cons c rest ih =>
    intro r h
    by_cases hc : c = delim
    · subst hc
      simp only [expectLoop, eq_self_iff_true, if_true, WIStream.mk.injEq, and_true] at h
      rw [← h]
      simp [expectLoop]
    · cases hsp : isspaceW c with
      | true =>
        simp only [expectLoop, if_neg hc, hsp, if_true] at h
        simpa [expectLoop, hc, hsp] using ih r h
      | false => simp [expectLoop, hc, hsp] at h

/-- The `expect` helper is append-stable on success. -/
theorem expect_append {a r : List Char} {delim : Char} (s : List Char)
    (h : expect ⟨a, false⟩ delim = ⟨r, false⟩) :
    expect ⟨a ++ s, false⟩ delim = ⟨r ++ s, false⟩ :=
  expectLoop_append delim s a r h

/-- The byte-gathering loop is append-stable when it stopped at a remaining
character (fuel-indexed induction). -/
theorem byteLoop_none_append (s : List Char) : ∀ (n : Nat) (a : List Char), a.length ≤ n →
    ∀ (acc bytes : List Nat) (is2 : WIStream),
    byteLoop ⟨a, false⟩ acc = (is2, bytes, none) → is2.input ≠ [] →
    byteLoop ⟨a ++ s, false⟩ acc = (⟨is2.input ++ s, is2.failed⟩, bytes, none) := by
  intro n
  induction n with
  | zero =>
    intro a ha acc bytes is2 h hne
    have ha0 : a = [] := List.length_eq_zero.mp (by omega)
    subst ha0
    have h0 : byteLoop ⟨([] : List Char), false⟩ acc = (⟨[], true⟩, acc, none) := rfl
    rw [h0] at h
    have h1 : (⟨[], true⟩ : WIStream) = is2 := congrArg Prod.fst h
    rw [← h1] at hne
    exact absurd rfl hne
  | succ n ih =>
    intro a ha acc bytes is2 h hne
    rw [byteLoop_eq] at h
    rcases he : extractHexUInt ⟨a, false⟩ with ⟨is', b?⟩
    rw [he] at h
    cases b? with
    | none =>
      have h1 : is' = is2 := congrArg Prod.fst h
      have h2 : acc = bytes := congrArg (fun p => p.2.1) h
      subst h1
      subst h2
      have hf : is'.failed = true := extractUInt_none_shape he
      have heta : is' = (⟨is'.input, true⟩ : WIStream) := by rw [← hf]
      rw [heta] at he
      have he' : extractUInt hexDigitVal 16 ⟨a, false⟩ = (⟨is'.input, true⟩, none) := he
      have happ := extractUInt_none_append s he' hne
      have happ' : extractHexUInt ⟨a ++ s, false⟩ = (⟨is'.input ++ s, true⟩, none) := happ
      rw [byteLoop_eq, happ', hf]
    | some b =>
      by_cases hb : b > 0xff
      · simp only [hb, if_true] at h
        have h3 := congrArg (fun p => p.2.2) h
        simp at h3
      · simp only [hb, if_false] at h
        have hf' : is'.failed = false := extractUInt_some_shape he
        have heta : is' = (⟨is'.input, false⟩ : WIStream) := by rw [← hf']
        rw [heta] at h he
        by_cases hinp : is'.input = []
        · rw [hinp] at h
          have h0 : byteLoop ⟨([] : List Char), false⟩ (acc ++ [b])
              = (⟨[], true⟩, acc ++ [b], none) := rfl
          rw [h0] at h
          have h1 : (⟨[], true⟩ : WIStream) = is2 := congrArg Prod.fst h
          rw [← h1] at hne
          exact absurd rfl hne
        · have he' : extractUInt hexDigitVal 16 ⟨a, false⟩ = (⟨is'.input, false⟩, some b) := he
          have happ := extractUInt_some_append s he' (Or.inl hinp)
          have happ' : extractHexUInt ⟨a ++ s, false⟩ = (⟨is'.input ++ s, false⟩, some b) := happ
          have hlen : is'.input.length < a.length := by
            have := extractUInt_some_consumes he'
            simpa using this
          rw [byteLoop_eq, happ']
          simp only [hb, if_false]
          exact ih is'.input (by omega) (acc ++ [b]) bytes is2 h hne

/-- The byte-gathering loop is append-stable when it stopped at a remaining
character. -/
theorem byteLoop_append {a : List Char} {acc bytes : List Nat} {is2 : WIStream}
    (s : List Char) (h : byteLoop ⟨a, false⟩ acc = (is2, bytes, none))
    (hne : is2.input ≠ []) :
    byteLoop ⟨a ++ s, false⟩ acc = (⟨is2.input ++ s, is2.failed⟩, bytes, none) :=
  byteLoop_none_append s a.length a (le_refl _) acc bytes is2 h hne

/-- A successful buffer extraction is append-stable: it consumes the same
characters, returns the same bytes, prints nothing, and leaves the suffix on
the stream. -/
theorem opExtractBytes_success_append (base : Base) (a sd : List Char)
    (h : (opExtractBytes base ⟨a, false⟩).is.failed = false) :
    opExtractBytes base ⟨a ++ sd, false⟩ =
      ⟨⟨(opExtractBytes base ⟨a, false⟩).is.input ++ sd, false⟩,
        (opExtractBytes base ⟨a, false⟩).bytes, "", base⟩ := by
  cases h1 : (expect ⟨a, false⟩ '\x7b').failed with
  | true => simp [opExtractBytes, h1] at h
  | false =>
    rcases hexp : expect ⟨a, false⟩ '\x7b' with ⟨i1, f1⟩
    have hf1 : f1 = false := by rw [hexp] at h1; exact h1
    subst hf1
    have hexp2 : expect ⟨a ++ sd, false⟩ '\x7b' = ⟨i1 ++ sd, false⟩ :=
      expect_append sd hexp
    rcases hb : byteLoop ⟨i1, false⟩ [] with ⟨is2, bytes, bad⟩
    cases bad with
    | some v =>
      have hf2 : is2.failed = true := by
        have h5 : (byteLoop ⟨i1, false⟩ []).1.failed = true := byteLoop_some_failed (by rw [hb])
        rw [hb] at h5
        exact h5
      simp [opExtractBytes, hexp, hb, hf2] at h
    | none =>
      cases hemp : bytes.isEmpty with
      | true => simp [opExtractBytes, hexp, hb, hemp] at h
      | false =>
        cases h3 : (expect ⟨is2.input, false⟩ '\x7d').failed with
        | true => simp [opExtractBytes, hexp, hb, hemp, h3] at h
        | false =>
          rcases hexp3 : expect ⟨is2.input, false⟩ '\x7d' with ⟨i3, f3⟩
          have hf3 : f3 = false := by rw [hexp3] at h3; exact h3
          subst hf3
          have hne2 : is2.input ≠ [] := by
            intro hnil
            rw [hnil] at hexp3
            have hcon : (⟨[], true⟩ : WIStream) = ⟨i3, false⟩ := hexp3
            simp at hcon
          have hloop2 := byteLoop_append sd hb hne2
          have hexp4 : expect ⟨is2.input ++ sd, false⟩ '\x7d' = ⟨i3 ++ sd, false⟩ :=
            expect_append sd hexp3
          simp [opExtractBytes, hexp, hexp2, hb, hloop2, hemp, hexp3, hexp4]

/-- A non-empty command token extraction leaves an unfailed stream. -/
theorem extractToken_shape {a : List Char} {is1 : WIStream} {tok : String}
    (h : extractToken ⟨a, false⟩ = (is1, tok)) (hne : tok ≠ "") :
    is1.failed = false := by
  rcases hsp : spanWith tokChar (skipWs a) with ⟨ds, rest⟩
  cases ds with
  | nil =>
    simp only [extractToken, Bool.false_eq_true, if_false, hsp, Prod.mk.injEq] at h
    exact absurd h.2.symm hne
  | cons c cs =>
    simp only [extractToken, Bool.false_eq_true, if_false, hsp, Prod.mk.injEq] at h
    rw [← h.1]

/-- A stream known to be unfailed equals its explicit unfailed form. -/
theorem wistream_eta_false {is : WIStream} (h : is.failed = false) :
    is = ⟨is.input, false⟩ := by
  cases is with
  | mk inp fl => rw [← h]

/-- The command dispatcher gives the same parse when the stream carries an
extra suffix whose head is not a decimal digit, provided the original line
parsed to a complete command. -/
theorem dispatchCmd_append (base : Base) (command : String) (r sd : List Char)
    (hc : (dispatchCmd base command ⟨r, false⟩).1.isCompleteCommand = true)
    (hdec : headNone decDigitVal sd) :
    dispatchCmd base command ⟨r ++ sd, false⟩ = dispatchCmd base command ⟨r, false⟩ := by
  by_cases h1 : command = "q" ∨ command = "quit"
  · simp [dispatchCmd, h1]
  · by_cases h2 : command = "h" ∨ command = "help"
    · simp [dispatchCmd, h1, h2]
    · by_cases h3 : command = "write"
      · simp only [dispatchCmd, if_neg h1, if_neg h2, if_pos h3] at hc ⊢
        have hRf : (opExtractBytes base ⟨r, false⟩).is.failed = false := by
          cases hf : (opExtractBytes base ⟨r, false⟩).is.failed with
          | false => rfl
          | true => simp [writeStep, hf, ParsedLine.isCompleteCommand] at hc
        have happ := opExtractBytes_success_append base r sd hRf
        obtain ⟨-, -, hbase⟩ := opExtractBytes_success_shape base ⟨r, false⟩ hRf
        rw [happ]
        simp [writeStep, hRf, hbase]
      · by_cases h4 : command = "read"
        · simp only [dispatchCmd, if_neg h1, if_neg h2, if_neg h3, if_pos h4] at hc ⊢
          rcases hext : extractDecUInt ⟨r, false⟩ with ⟨ise, v?⟩
          cases v? with
          | none =>
            rw [hext] at hc
            simp [readStep, ParsedLine.isCompleteCommand] at hc
          | some v =>
            have hsh : ise.failed = false := extractUInt_some_shape hext
            have heta : ise = (⟨ise.input, false⟩ : WIStream) := by rw [← hsh]
            rw [heta] at hext
            have happ := extractUInt_some_append sd hext (Or.inr hdec)
            have happ' : extractDecUInt ⟨r ++ sd, false⟩ = (⟨ise.input ++ sd, false⟩, some v) :=
              happ
            rw [happ']
            simp [readStep]
        · by_cases h5 : command = "writeread"
          · simp only [dispatchCmd, if_neg h1, if_neg h2, if_neg h3, if_neg h4,
              if_pos h5] at hc ⊢
            have hRf : (opExtractBytes base ⟨r, false⟩).is.failed = false := by
              cases hf : (opExtractBytes base ⟨r, false⟩).is.failed with
              | false => rfl
              | true => simp [writeReadStep, hf, ParsedLine.isCompleteCommand] at hc
            have happ := opExtractBytes_success_append base r sd hRf
            obtain ⟨-, -, hbase⟩ := opExtractBytes_success_shape base ⟨r, false⟩ hRf
            have hetaR : (opExtractBytes base ⟨r, false⟩).is
                = ⟨(opExtractBytes base ⟨r, false⟩).is.input, false⟩ :=
              wistream_eta_false hRf
            rcases hext : extractDecUInt ⟨(opExtractBytes base ⟨r, false⟩).is.input, false⟩
              with ⟨ise, v?⟩
            have hextR : extractDecUInt (opExtractBytes base ⟨r, false⟩).is = (ise, v?) := by
              rw [hetaR]
              exact hext
            cases v? with
            | none =>
              simp [writeReadStep, hRf, hextR, ParsedLine.isCompleteCommand] at hc
            | some v =>
              have hsh : ise.failed = false := extractUInt_some_shape hext
              have heta : ise = (⟨ise.input, false⟩ : WIStream) := by rw [← hsh]
              rw [heta] at hext
              have happ2 := extractUInt_some_append sd hext (Or.inr hdec)
              have happ2' :
                  extractDecUInt ⟨(opExtractBytes base ⟨r, false⟩).is.input ++ sd, false⟩
                    = (⟨ise.input ++ sd, false⟩, some v) := happ2
              rw [happ]
              simp [writeReadStep, hRf, hextR, happ2', hbase]
          · simp [dispatchCmd, h1, h2, h3, h4, h5]

/-- Parsing a line with a whitespace-led (or empty) suffix appended gives the
same parse whenever the original line parsed to a complete command. -/
theorem parseLine_append (base : Base) (line s : String)
    (hc : (parseLine base line).1.isCompleteCommand = true) (hs : suffOk s = true) :
    parseLine base (line ++ s) = parseLine base line := by
  have hstok : headNone tokChar s.data := by
    cases hsd : s.data with
    | nil => trivial
    | cons c cs =>
      have hw : isspaceW c = true := by
        simp only [suffOk, hsd] at hs
        exact hs
      simp [headNone, tokChar, hw]
  have hsdec : headNone decDigitVal s.data := by
    cases hsd : s.data with
    | nil => trivial
    | cons c cs =>
      have hw : isspaceW c = true := by
        simp only [suffOk, hsd] at hs
        exact hs
      simp only [headNone]
      exact decDigitVal_of_space hw
  rcases het : extractToken ⟨line.data, false⟩ with ⟨is1, command⟩
  by_cases hcmd : command = ""
  · subst hcmd
    have e1 : parseLine base line = dispatchCmd base "" is1 := by
      simp only [parseLine]
      rw [het]
    rw [e1] at hc
    have hdis : dispatchCmd base "" is1 = (.emptyCmd, base) := rfl
    rw [hdis] at hc
    simp [ParsedLine.isCompleteCommand] at hc
  · have hf1 : is1.failed = false := extractToken_shape het hcmd
    have heta1 : is1 = (⟨is1.input, false⟩ : WIStream) := by rw [← hf1]
    rw [heta1] at het
    have het2 := extractToken_append s.data het hstok
    have het3 : extractToken ⟨(line ++ s).data, false⟩
        = (⟨is1.input ++ s.data, false⟩, command) := het2
    have e1 : parseLine base line = dispatchCmd base command ⟨is1.input, false⟩ := by
      simp only [parseLine]
      rw [het]
    have e2 : parseLine base (line ++ s)
        = dispatchCmd base command ⟨is1.input ++ s.data, false⟩ := by
      simp only [parseLine]
      rw [het3]
    rw [e1] at hc
    rw [e1, e2]
    exact dispatchCmd_append base command is1.input s.data hc hsdec

/-- C10: for every input line whose leading tokens form a complete recognised
command with valid arguments, appending extra trailing text (empty or led by
whitespace, i.e. extra tokens) leaves the command's behaviour unchanged: the
line is processed exactly as if the trailing text were absent. -/
theorem claim10_theorem (device : Device) (base : Base) (line s : String)
    (hc : (parseLine base line).1.isCompleteCommand = true)
    (hs : suffOk s = true) :
    processLine device base (line ++ s) = processLine device base line := by
  have hp := parseLine_append base line s hc hs
  unfold processLine
  rw [hp]

/-- C10 witness: "read 4 extra" behaves as "read 4" and "quit now" quits,
at a concrete device. -/
theorem claim10_witness :
    processLine nackDev .dec ("read 4" ++ " extra") = processLine nackDev .dec "read 4" ∧
    processLine nackDev .dec ("quit" ++ " now") = processLine nackDev .dec "quit" :=
  ⟨claim10_theorem nackDev .dec "read 4" " extra" (by decide) (by decide),
   claim10_theorem nackDev .dec "quit" " now" (by decide) (by decide)⟩

end I2c
